import Mathlib

/-!
Verification of the CCPlayer playback core against its specification.

The Rust sources are shallowly embedded: pure functions become Lean
functions, stateful methods become explicit state passing, i64/usize
become Int/Nat (no overflow is reachable at the magnitudes involved),
f32/f64 sample and gain arithmetic is modelled exactly over the
rationals, and wall-clock readings (std::time::Instant) become integer
microsecond inputs.  Fallible methods return Except.
-/

namespace CCPlayer

/-! ## audio/sync.rs -/

/-- Maximum allowed sync deviation before correction (40 ms), audio/sync.rs. -/
def MAX_SYNC_DEVIATION_US : Int := 40000

/-- Target sync accuracy (1 ms), audio/sync.rs. -/
def SYNC_TARGET_US : Int := 1000

/-- Action to take for a video frame (enum FrameAction, audio/sync.rs).
Wait carries its duration in integer microseconds. -/
inductive FrameAction where
  | Display
  | DisplayWithAdjustment (us : Int)
  | Wait (us : Int)
  | Drop
  | Repeat
deriving DecidableEq, Repr

/-- State of AVSyncController (audio/sync.rs) as read and written by
should_display_frame: the master clock PTS, the video clock fields it
touches, and the statistics counters.  The f64 exponential moving
average avg_sync_error is wall-clock-free but unread by any claim and
is kept as an exact rational. -/
structure AVSyncController where
  master_pts : Int
  video_last_pts : Int
  video_dropped_frames : Nat
  stats_sync_error : Int
  stats_max_sync_error : Int
  stats_avg_sync_error : ℚ
  stats_dropped_frames : Nat
deriving DecidableEq, Repr

/-- AVSyncController::new: both clocks at 0, empty statistics. -/
def AVSyncController.new : AVSyncController :=
  { master_pts := 0
    video_last_pts := 0
    video_dropped_frames := 0
    stats_sync_error := 0
    stats_max_sync_error := 0
    stats_avg_sync_error := 0
    stats_dropped_frames := 0 }

/-- AVSyncController::update_sync_stats: record the current error, fold
it into the moving average with alpha = 1/10, and track the peak
absolute error. -/
def AVSyncController.update_sync_stats (c : AVSyncController) (error : Int) :
    AVSyncController :=
  { c with
    stats_sync_error := error
    stats_avg_sync_error := c.stats_avg_sync_error * (1 - 1/10) + (error : ℚ) * (1/10)
    stats_max_sync_error := max c.stats_max_sync_error |error| }

/-- AVSyncController::should_display_frame: compare the frame PTS with
the master clock and pick a FrameAction, updating the statistics and,
on Drop, both dropped-frame counters. -/
def AVSyncController.should_display_frame (c : AVSyncController) (frame_pts : Int) :
    FrameAction × AVSyncController :=
  let sync_error := frame_pts - c.master_pts
  let c := c.update_sync_stats sync_error
  if sync_error < -MAX_SYNC_DEVIATION_US then
    (FrameAction.Drop,
      { c with
        video_dropped_frames := c.video_dropped_frames + 1
        stats_dropped_frames := c.stats_dropped_frames + 1 })
  else if sync_error > MAX_SYNC_DEVIATION_US then
    (FrameAction.Wait sync_error, c)
  else if |sync_error| < SYNC_TARGET_US then
    (FrameAction.Display, { c with video_last_pts := frame_pts })
  else
    (FrameAction.DisplayWithAdjustment sync_error, { c with video_last_pts := frame_pts })

/-- C1: for master clock M and frame PTS p with error e = p - M,
should_display_frame returns Drop iff e is below -40000 us (and then
increments the dropped-frame counter), Wait e iff e exceeds 40000 us,
Display iff the absolute error is under 1000 us, and
DisplayWithAdjustment e exactly when 1000 le abs e le 40000. -/
theorem C1_should_display_frame_thresholds (c : AVSyncController) (p : Int) :
    (((c.should_display_frame p).1 = FrameAction.Drop ↔ p - c.master_pts < -40000)
      ∧ ((c.should_display_frame p).1 = FrameAction.Drop →
          (c.should_display_frame p).2.video_dropped_frames = c.video_dropped_frames + 1))
    ∧ ((c.should_display_frame p).1 = FrameAction.Wait (p - c.master_pts) ↔
        p - c.master_pts > 40000)
    ∧ ((c.should_display_frame p).1 = FrameAction.Display ↔ |p - c.master_pts| < 1000)
    ∧ ((c.should_display_frame p).1 = FrameAction.DisplayWithAdjustment (p - c.master_pts) ↔
        (1000 ≤ |p - c.master_pts| ∧ |p - c.master_pts| ≤ 40000)) := by
  have habs : ∀ x : Int, |x| = if x < 0 then -x else x := fun x => by
    rcases lt_or_le x 0 with h | h
    · rw [abs_of_neg h, if_pos h]
    · rw [abs_of_nonneg h, if_neg (not_lt.mpr h)]
  simp only [AVSyncController.should_display_frame, AVSyncController.update_sync_stats,
    MAX_SYNC_DEVIATION_US, SYNC_TARGET_US]
  rw [habs]
  split_ifs <;> simp_all <;> omega

/-! ## renderer/mod.rs: frame entities consumed by the queue -/

/-- Pixel payload of a decoded frame (enum FrameData, renderer/mod.rs).
Plane byte buffers (Vec of u8) are lists of byte values as Nat; the
frame queue only ever reads their lengths. -/
inductive FrameData where
  | Yuv420 (y_plane u_plane v_plane : List Nat) (y_stride uv_stride : Nat)
  | Yuv422 (y_plane u_plane v_plane : List Nat) (y_stride uv_stride : Nat)
  | Yuv444 (y_plane u_plane v_plane : List Nat) (stride : Nat)
  | Rgb (data : List Nat) (stride : Nat)
  | Rgba (data : List Nat) (stride : Nat)
  | Nv12 (y_plane uv_plane : List Nat) (y_stride uv_stride : Nat)
deriving DecidableEq, Repr

/-- A decoded video frame (struct VideoFrame, renderer/mod.rs): pixel
data, PTS and duration in microseconds, dimensions, and the f32 pixel
aspect ratio kept as an exact rational. -/
structure VideoFrame where
  data : FrameData
  pts : Int
  duration : Int
  width : Nat
  height : Nat
  par : ℚ
deriving DecidableEq, Repr

/-! ## decoder/frame_queue.rs: FrameQueue -/

/-- FrameQueue::estimate_frame_size: sum of the raw backing-store
lengths of all planes/buffers of the frame. -/
def estimate_frame_size (frame : VideoFrame) : Nat :=
  match frame.data with
  | FrameData.Yuv420 y u v _ _ => y.length + u.length + v.length
  | FrameData.Yuv422 y u v _ _ => y.length + u.length + v.length
  | FrameData.Yuv444 y u v _ => y.length + u.length + v.length
  | FrameData.Rgb d _ => d.length
  | FrameData.Rgba d _ => d.length
  | FrameData.Nv12 y uv _ _ => y.length + uv.length

/-- Statistics kept by the queue (struct QueueStats,
decoder/frame_queue.rs).  The wall-clock-driven avg_depth moving
average and its last_update Instant are not modelled: they depend on
real elapsed time, and no claim reads them. -/
structure QueueStats where
  frames_added : Nat
  frames_dropped : Nat
  frames_consumed : Nat
  current_depth : Nat
  max_depth : Nat
  bytes_processed : Nat
deriving DecidableEq, Repr

/-- The frame queue itself (struct FrameQueue, decoder/frame_queue.rs). -/
structure FrameQueue where
  frames : List VideoFrame
  max_frames : Nat
  total_size : Nat
  max_size : Nat
  stats : QueueStats
  last_pts : Option Int
deriving DecidableEq, Repr

/-- FrameQueue::new: empty queue with the given frame capacity and the
100 MB default byte bound. -/
def FrameQueue.new (max_frames : Nat) : FrameQueue :=
  { frames := []
    max_frames := max_frames
    total_size := 0
    max_size := 100 * 1024 * 1024
    stats := ⟨0, 0, 0, 0, 0, 0⟩
    last_pts := none }

/-- The eviction loop at the start of FrameQueue::push_frame: while the
queue is at frame capacity or the incoming frame would exceed the byte
bound, and the queue is non-empty, drop the front (oldest PTS) frame,
subtracting its estimated size (usize saturating_sub is Nat
subtraction) and counting it as dropped.  Returns the surviving
frames, the new total size, and how many frames were dropped. -/
def evict_for (frames : List VideoFrame) (total_size frame_size max_frames max_size : Nat) :
    List VideoFrame × Nat × Nat :=
  match frames with
  | [] => ([], total_size, 0)
  | f :: rest =>
    if max_frames ≤ (f :: rest).length ∨ max_size < total_size + frame_size then
      let r := evict_for rest (total_size - estimate_frame_size f)
        frame_size max_frames max_size
      (r.1, r.2.1, r.2.2 + 1)
    else
      (f :: rest, total_size, 0)

/-- The insertion step of FrameQueue::push_frame: place the frame at
the position of the first queued frame with strictly greater PTS,
appending at the end when there is none. -/
def insert_pts_order (frames : List VideoFrame) (frame : VideoFrame) : List VideoFrame :=
  match frames with
  | [] => [frame]
  | f :: rest =>
    if frame.pts < f.pts then frame :: f :: rest
    else f :: insert_pts_order rest frame

/-- FrameQueue::push_frame: evict until there is room, insert the frame
in PTS order, account its size, remember the back PTS, and update the
statistics.  The out-of-order warning in the source is log-only and the
method always returns Ok, so no Result wrapper is needed. -/
def FrameQueue.push_frame (q : FrameQueue) (frame : VideoFrame) : FrameQueue :=
  let frame_size := estimate_frame_size frame
  let r := evict_for q.frames q.total_size frame_size q.max_frames q.max_size
  let ndropped := r.2.2
  let frames2 := insert_pts_order r.1 frame
  { q with
    frames := frames2
    total_size := r.2.1 + frame_size
    last_pts := frames2.getLast?.map VideoFrame.pts
    stats := { q.stats with
      frames_added := q.stats.frames_added + 1
      frames_dropped := q.stats.frames_dropped + ndropped
      current_depth := frames2.length
      max_depth := max q.stats.max_depth frames2.length
      bytes_processed := q.stats.bytes_processed + frame_size } }

/-- FrameQueue::pop_frame: remove and return the front frame, if any,
subtracting its estimated size and counting it as consumed. -/
def FrameQueue.pop_frame (q : FrameQueue) : Option VideoFrame × FrameQueue :=
  match q.frames with
  | [] => (none, q)
  | f :: rest =>
    (some f,
      { q with
        frames := rest
        total_size := q.total_size - estimate_frame_size f
        stats := { q.stats with
          frames_consumed := q.stats.frames_consumed + 1
          current_depth := rest.length } })

/-- The while-let loop of FrameQueue::drop_frames_before: repeatedly
drop_oldest_frame while the front PTS is below the threshold.  Returns
the surviving frames, the new total size, and the dropped count. -/
def drop_before_go (frames : List VideoFrame) (total_size : Nat) (pts : Int) :
    List VideoFrame × Nat × Nat :=
  match frames with
  | [] => ([], total_size, 0)
  | f :: rest =>
    if f.pts < pts then
      let r := drop_before_go rest (total_size - estimate_frame_size f) pts
      (r.1, r.2.1, r.2.2 + 1)
    else
      (f :: rest, total_size, 0)

/-- FrameQueue::drop_frames_before: evict all frames with PTS below the
threshold from the front of the queue. -/
def FrameQueue.drop_frames_before (q : FrameQueue) (pts : Int) : FrameQueue :=
  let r := drop_before_go q.frames q.total_size pts
  { q with
    frames := r.1
    total_size := r.2.1
    stats := { q.stats with
      frames_dropped := q.stats.frames_dropped + r.2.2
      current_depth := r.1.length } }

/-- FrameQueue::len. -/
def FrameQueue.len (q : FrameQueue) : Nat := q.frames.length

/-- FrameQueue::is_full: at frame capacity or at the byte bound. -/
def FrameQueue.is_full (q : FrameQueue) : Prop :=
  q.max_frames ≤ q.frames.length ∨ q.max_size ≤ q.total_size

instance (q : FrameQueue) : Decidable q.is_full := by
  unfold FrameQueue.is_full; infer_instance

/-- FrameQueue::clear: drop everything and reset the size accounting. -/
def FrameQueue.clear (q : FrameQueue) : FrameQueue :=
  { q with
    frames := []
    total_size := 0
    last_pts := none
    stats := { q.stats with current_depth := 0 } }

/-- Push a whole list of frames in order (a sequence of push_frame
calls). -/
def pushAll (fs : List VideoFrame) (q : FrameQueue) : FrameQueue :=
  fs.foldl FrameQueue.push_frame q

/-- Successive pop_frame calls: pop up to n frames, stopping when the
queue is empty, and collect the results in order. -/
def popN : Nat → FrameQueue → List VideoFrame
  | 0, _ => []
  | n + 1, q =>
    match q.pop_frame with
    | (none, _) => []
    | (some f, q') => f :: popN n q'

/-- Pop every frame of the queue in order. -/
def FrameQueue.popAll (q : FrameQueue) : List VideoFrame :=
  popN q.frames.length q

/-- A minimal concrete frame with a given PTS (the analogue of the
create_test_frame helper of the source tests, with an empty payload so
that concrete scenarios evaluate quickly). -/
def mkFrame (pts : Int) : VideoFrame :=
  { data := FrameData.Rgb [] 0
    pts := pts
    duration := 16667
    width := 0
    height := 0
    par := 1 }

/-- Frames listed in non-decreasing PTS order. -/
def SortedByPts (l : List VideoFrame) : Prop :=
  l.Pairwise (fun a b => a.pts ≤ b.pts)

instance (l : List VideoFrame) : Decidable (SortedByPts l) := by
  unfold SortedByPts; infer_instance

/-- Total estimated byte size of a list of frames. -/
def sizeSum (l : List VideoFrame) : Nat :=
  (l.map estimate_frame_size).sum

/-- The size accounting invariant of the queue: total_size is the sum
of estimate_frame_size over exactly the queued frames. -/
def FrameQueue.wf (q : FrameQueue) : Prop :=
  q.total_size = sizeSum q.frames

instance (q : FrameQueue) : Decidable q.wf := by
  unfold FrameQueue.wf; infer_instance

lemma mem_insert_pts_order {l : List VideoFrame} {f x : VideoFrame} :
    x ∈ insert_pts_order l f ↔ x = f ∨ x ∈ l := by
  induction l with
  | nil => simp [insert_pts_order]
  | cons g rest ih =>
    by_cases h : f.pts < g.pts <;> (simp [insert_pts_order, h, ih]; try tauto)

lemma length_insert_pts_order (l : List VideoFrame) (f : VideoFrame) :
    (insert_pts_order l f).length = l.length + 1 := by
  induction l with
  | nil => simp [insert_pts_order]
  | cons g rest ih =>
    by_cases h : f.pts < g.pts <;> simp [insert_pts_order, h, ih]

lemma sizeSum_insert_pts_order (l : List VideoFrame) (f : VideoFrame) :
    sizeSum (insert_pts_order l f) = sizeSum l + estimate_frame_size f := by
  induction l with
  | nil => simp [insert_pts_order, sizeSum]
  | cons g rest ih =>
    by_cases h : f.pts < g.pts <;>
      simp only [insert_pts_order, if_pos, if_neg, h, ite_true, ite_false, sizeSum,
        List.map_cons, List.sum_cons] at * <;>
      omega

lemma sorted_insert_pts_order {l : List VideoFrame} (f : VideoFrame)
    (h : SortedByPts l) : SortedByPts (insert_pts_order l f) := by
  induction l with
  | nil =>
    simp [insert_pts_order, SortedByPts]
  | cons g rest ih =>
    rw [SortedByPts, List.pairwise_cons] at h
    obtain ⟨h1, h2⟩ := h
    by_cases hlt : f.pts < g.pts
    · rw [SortedByPts]
      simp only [insert_pts_order, if_pos hlt]
      refine List.Pairwise.cons ?_ (List.Pairwise.cons h1 h2)
      intro b hb
      rcases List.mem_cons.mp hb with rfl | hb
      · exact le_of_lt hlt
      · exact le_trans (le_of_lt hlt) (h1 b hb)
    · rw [SortedByPts]
      simp only [insert_pts_order, if_neg hlt]
      refine List.Pairwise.cons ?_ (ih h2)
      intro b hb
      rcases mem_insert_pts_order.mp hb with rfl | hb
      · exact not_lt.mp hlt
      · exact h1 b hb

lemma insert_pts_order_append {l : List VideoFrame} {f : VideoFrame}
    (h : ∀ g ∈ l, ¬ f.pts < g.pts) : insert_pts_order l f = l ++ [f] := by
  induction l with
  | nil => simp [insert_pts_order]
  | cons g rest ih =>
    have hg : ¬ f.pts < g.pts := h g (List.mem_cons_self g rest)
    simp only [insert_pts_order, if_neg hg, List.cons_append, List.cons.injEq, true_and]
    exact ih fun x hx => h x (List.mem_cons_of_mem g hx)

lemma evict_for_suffix (l : List VideoFrame) (t fs mf ms : Nat) :
    (evict_for l t fs mf ms).1 <:+ l := by
  induction l generalizing t with
  | nil => exact List.suffix_rfl
  | cons f rest ih =>
    simp only [evict_for]
    split_ifs with h
    · exact (ih _).trans (List.suffix_cons f rest)
    · exact List.suffix_rfl

lemma evict_for_len (l : List VideoFrame) (t fs mf ms : Nat) :
    (evict_for l t fs mf ms).1.length < mf ∨ (evict_for l t fs mf ms).1 = [] := by
  induction l generalizing t with
  | nil => right; rfl
  | cons f rest ih =>
    simp only [evict_for]
    split_ifs with h
    · exact ih _
    · left
      push_neg at h
      exact h.1

lemma evict_for_wf (l : List VideoFrame) (t fs mf ms : Nat) (hw : t = sizeSum l) :
    (evict_for l t fs mf ms).2.1 = sizeSum (evict_for l t fs mf ms).1 := by
  induction l generalizing t with
  | nil => simpa [evict_for, sizeSum] using hw
  | cons f rest ih =>
    simp only [evict_for]
    split_ifs with h
    · refine ih _ ?_
      simp only [sizeSum, List.map_cons, List.sum_cons] at hw
      simp only [sizeSum]
      omega
    · exact hw

lemma drop_before_go_wf (l : List VideoFrame) (t : Nat) (p : Int) (hw : t = sizeSum l) :
    (drop_before_go l t p).2.1 = sizeSum (drop_before_go l t p).1 := by
  induction l generalizing t with
  | nil => simpa [drop_before_go, sizeSum] using hw
  | cons f rest ih =>
    simp only [drop_before_go]
    split_ifs with h
    · refine ih _ ?_
      simp only [sizeSum, List.map_cons, List.sum_cons] at hw
      simp only [sizeSum]
      omega
    · exact hw

lemma push_frame_frames (q : FrameQueue) (f : VideoFrame) :
    (q.push_frame f).frames =
      insert_pts_order
        (evict_for q.frames q.total_size (estimate_frame_size f) q.max_frames q.max_size).1
        f := rfl

lemma sorted_push_frame (q : FrameQueue) (f : VideoFrame) (h : SortedByPts q.frames) :
    SortedByPts (q.push_frame f).frames := by
  rw [push_frame_frames]
  exact sorted_insert_pts_order f
    (List.Pairwise.sublist (evict_for_suffix _ _ _ _ _).sublist h)

lemma pushAll_sorted (fs : List VideoFrame) :
    ∀ q : FrameQueue, SortedByPts q.frames → SortedByPts (pushAll fs q).frames := by
  induction fs with
  | nil => intro q h; exact h
  | cons f rest ih => intro q h; exact ih _ (sorted_push_frame q f h)

lemma popN_eq_frames (n : Nat) :
    ∀ q : FrameQueue, q.frames.length ≤ n → popN n q = q.frames := by
  induction n with
  | zero =>
    intro q h
    have hq : q.frames = [] := List.length_eq_zero.mp (Nat.le_zero.mp h)
    simp [popN, hq]
  | succ n ih =>
    intro q h
    cases hf : q.frames with
    | nil => simp [popN, FrameQueue.pop_frame, hf]
    | cons f rest =>
      have hr : rest.length ≤ n := by
        rw [hf] at h
        simpa using h
      simp only [popN, FrameQueue.pop_frame, hf]
      rw [ih _ hr]

lemma popAll_eq_frames (q : FrameQueue) : q.popAll = q.frames :=
  popN_eq_frames _ q le_rfl

/-- C3: any push sequence yields pops in non-decreasing PTS order, and
the concrete scenario 5000, 1000, 3000 into an empty capacity-10 queue
pops as 1000, 3000, 5000. -/
theorem C3_pop_order_sorted :
    (∀ (fs : List VideoFrame) (cap : Nat),
        ((pushAll fs (FrameQueue.new cap)).popAll.map VideoFrame.pts).Sorted (· ≤ ·))
    ∧ ((pushAll [mkFrame 5000, mkFrame 1000, mkFrame 3000]
          (FrameQueue.new 10)).popAll.map VideoFrame.pts = [1000, 3000, 5000]) := by
  constructor
  · intro fs cap
    rw [popAll_eq_frames, List.Sorted, List.pairwise_map]
    exact pushAll_sorted fs (FrameQueue.new cap) (by simp [FrameQueue.new, SortedByPts])
  · rw [popAll_eq_frames]
    decide

/-- C2 counterexample: with capacity 2, pushing PTS 100, 200 and then
50 retains frames 50 and 200, although 100 was pushed, exceeds 50, and
is no longer retained - the retained frames are not those with the
highest PTS values among all frames pushed. -/
theorem C2_counterexample :
    (pushAll [mkFrame 100, mkFrame 200, mkFrame 50] (FrameQueue.new 2)).frames.map
        VideoFrame.pts = [50, 200]
    ∧ (100 : Int) ∉ (pushAll [mkFrame 100, mkFrame 200, mkFrame 50]
        (FrameQueue.new 2)).frames.map VideoFrame.pts
    ∧ (50 : Int) ∈ (pushAll [mkFrame 100, mkFrame 200, mkFrame 50]
        (FrameQueue.new 2)).frames.map VideoFrame.pts
    ∧ (50 : Int) < 100 := by
  decide

lemma append_suffix_append {a b : List VideoFrame} (m : List VideoFrame)
    (h : a <:+ b) : a ++ m <:+ b ++ m := by
  obtain ⟨t, ht⟩ := h
  exact ⟨t, by rw [← List.append_assoc, ht]⟩

lemma pushAll_suffix (fs : List VideoFrame) :
    ∀ q : FrameQueue, SortedByPts fs → SortedByPts q.frames →
      (∀ g ∈ q.frames, ∀ f ∈ fs, g.pts ≤ f.pts) →
      (pushAll fs q).frames <:+ q.frames ++ fs := by
  induction fs with
  | nil =>
    intro q _ _ _
    simp [pushAll]
  | cons f rest ih =>
    intro q hs hq hle
    rw [SortedByPts, List.pairwise_cons] at hs
    obtain ⟨hf_rest, hrest⟩ := hs
    have hq' : (q.push_frame f).frames =
        (evict_for q.frames q.total_size (estimate_frame_size f) q.max_frames q.max_size).1
          ++ [f] := by
      rw [push_frame_frames]
      refine insert_pts_order_append fun g hg => ?_
      have hg' : g ∈ q.frames := (evict_for_suffix _ _ _ _ _).sublist.mem hg
      exact not_lt.mpr (hle g hg' f (List.mem_cons_self f rest))
    have hmem : ∀ g ∈ (q.push_frame f).frames, ∀ x ∈ rest, g.pts ≤ x.pts := by
      intro g hg x hx
      rw [push_frame_frames] at hg
      rcases mem_insert_pts_order.mp hg with rfl | hg
      · exact hf_rest x hx
      · exact hle g ((evict_for_suffix _ _ _ _ _).sublist.mem hg) x
          (List.mem_cons_of_mem f hx)
    have h1 : (pushAll rest (q.push_frame f)).frames <:+ (q.push_frame f).frames ++ rest :=
      ih _ hrest (sorted_push_frame q f hq) hmem
    have h2 : (q.push_frame f).frames ++ rest <:+ q.frames ++ (f :: rest) := by
      rw [hq', List.append_assoc, List.singleton_append]
      exact append_suffix_append _ (evict_for_suffix _ _ _ _ _)
    exact h1.trans h2

/-- C2 as amended: after every push_frame the length never exceeds
max_frames (whenever max_frames is at least 1; eviction makes room
before inserting), and the retained frames are the highest-PTS ones
among those pushed when the pushes arrive in non-decreasing PTS order
(out-of-order pushes can evict a higher-PTS frame to admit a lower one,
as the counterexample shows). -/
theorem C2_capacity_amended :
    (∀ (q : FrameQueue) (f : VideoFrame), 1 ≤ q.max_frames →
        (q.push_frame f).len ≤ q.max_frames)
    ∧ (∀ (cap : Nat) (fs : List VideoFrame), SortedByPts fs →
        (pushAll fs (FrameQueue.new cap)).frames <:+ fs) := by
  constructor
  · intro q f h1
    have hlen : (q.push_frame f).len =
        (evict_for q.frames q.total_size (estimate_frame_size f) q.max_frames q.max_size).1.length
          + 1 := by
      rw [FrameQueue.len, push_frame_frames, length_insert_pts_order]
    rcases evict_for_len q.frames q.total_size (estimate_frame_size f) q.max_frames q.max_size
      with h | h
    · omega
    · rw [hlen, h]
      simpa using h1
  · intro cap fs hs
    have := pushAll_suffix fs (FrameQueue.new cap) hs
      (by simp [FrameQueue.new, SortedByPts])
      (by simp [FrameQueue.new])
    simpa [FrameQueue.new] using this

/-- Witness for the amended C2 at concrete inputs. -/
theorem C2_capacity_amended_witness :
    (1 ≤ (FrameQueue.new 2).max_frames
      ∧ ((FrameQueue.new 2).push_frame (mkFrame 0)).len ≤ (FrameQueue.new 2).max_frames)
    ∧ (SortedByPts [mkFrame 1, mkFrame 2]
      ∧ (pushAll [mkFrame 1, mkFrame 2] (FrameQueue.new 3)).frames <:+
          [mkFrame 1, mkFrame 2]) :=
  ⟨⟨by decide, C2_capacity_amended.1 (FrameQueue.new 2) (mkFrame 0) (by decide)⟩,
    ⟨by decide, C2_capacity_amended.2 3 [mkFrame 1, mkFrame 2] (by decide)⟩⟩

/-- C10: total_size always equals the sum of estimate_frame_size over
the queued frames - the invariant holds initially and is preserved by
push_frame, pop_frame, drop_frames_before and clear - and under it
is_full decides with exactly that sum. -/
theorem C10_total_size_invariant :
    (∀ n, (FrameQueue.new n).wf)
    ∧ (∀ (q : FrameQueue) (f : VideoFrame), q.wf → (q.push_frame f).wf)
    ∧ (∀ q : FrameQueue, q.wf → (q.pop_frame).2.wf)
    ∧ (∀ (q : FrameQueue) (p : Int), q.wf → (q.drop_frames_before p).wf)
    ∧ (∀ q : FrameQueue, q.wf → q.clear.wf)
    ∧ (∀ q : FrameQueue, q.wf →
        (q.is_full ↔ q.max_frames ≤ q.len ∨ q.max_size ≤ sizeSum q.frames)) := by
  refine ⟨fun n => by simp [FrameQueue.new, FrameQueue.wf, sizeSum], ?_, ?_, ?_, ?_, ?_⟩
  · intro q f hw
    rw [FrameQueue.wf] at hw ⊢
    rw [push_frame_frames, sizeSum_insert_pts_order]
    have := evict_for_wf q.frames q.total_size (estimate_frame_size f) q.max_frames
      q.max_size hw
    show (evict_for q.frames q.total_size (estimate_frame_size f) q.max_frames
      q.max_size).2.1 + estimate_frame_size f = _
    omega
  · intro q hw
    rw [FrameQueue.wf] at hw ⊢
    cases hf : q.frames with
    | nil => simp [FrameQueue.pop_frame, hf, hw, sizeSum]
    | cons f rest =>
      rw [hf] at hw
      simp only [sizeSum, List.map_cons, List.sum_cons] at hw
      simp only [FrameQueue.pop_frame, hf, sizeSum]
      omega
  · intro q p hw
    rw [FrameQueue.wf] at hw ⊢
    exact drop_before_go_wf q.frames q.total_size p hw
  · intro q hw
    simp [FrameQueue.wf, FrameQueue.clear, sizeSum]
  · intro q hw
    rw [FrameQueue.wf] at hw
    rw [FrameQueue.is_full, FrameQueue.len, hw]

/-- Witness for C10 at a concrete queue. -/
theorem C10_total_size_invariant_witness :
    (FrameQueue.new 3).wf ∧ ((FrameQueue.new 3).push_frame (mkFrame 7)).wf :=
  ⟨C10_total_size_invariant.1 3,
    C10_total_size_invariant.2.1 (FrameQueue.new 3) (mkFrame 7) (by decide)⟩

/-! ## decoder/frame_queue.rs: FrameTimingController -/

/-- Truncation of an exact rational to i64: the Rust as-cast rounds
toward zero. -/
def ratTruncToInt (x : ℚ) : Int :=
  if 0 ≤ x then x.floor else -(-x).floor

/-- Frame presentation decision (enum FramePresentation,
decoder/frame_queue.rs); Wait carries integer microseconds. -/
inductive FramePresentation where
  | Present
  | Wait (us : Int)
  | Drop
deriving DecidableEq, Repr

/-- Render pacing state (struct FrameTimingController,
decoder/frame_queue.rs).  Instants are integer microsecond wall-clock
readings supplied as inputs; the f32 fps and speed are exact
rationals. -/
structure FrameTimingController where
  target_fps : ℚ
  frame_duration : Int
  last_present_time : Option Int
  last_pts : Option Int
  clock_offset : Int
  playback_speed : ℚ
  drop_threshold_us : Int
deriving DecidableEq, Repr

/-- FrameTimingController::new: derive the frame duration from the
target fps; the 50 ms drop threshold in microseconds. -/
def FrameTimingController.new (target_fps : ℚ) : FrameTimingController :=
  { target_fps := target_fps
    frame_duration := ratTruncToInt (1000000 / target_fps)
    last_present_time := none
    last_pts := none
    clock_offset := 0
    playback_speed := 1
    drop_threshold_us := 50000 }

/-- FrameTimingController::should_present_frame, with the
Instant::now() reading passed in as now (microseconds).
Instant::duration_since saturates at zero, hence the max with 0.  The
source unwraps last_pts on the non-first-frame path; the two last
fields are always set together, and the unwrap is modelled as getD 0 on
that unreachable branch. -/
def FrameTimingController.should_present_frame (ftc : FrameTimingController)
    (now : Int) (frame : VideoFrame) : FramePresentation × FrameTimingController :=
  match ftc.last_present_time with
  | none =>
    (FramePresentation.Present,
      { ftc with
        last_present_time := some now
        last_pts := some frame.pts
        clock_offset := frame.pts })
  | some last =>
    let elapsed_us := max (now - last) 0
    let expected_pts :=
      ftc.last_pts.getD 0 + ratTruncToInt ((elapsed_us : ℚ) * ftc.playback_speed)
    let pts_diff := frame.pts - expected_pts
    if ftc.frame_duration < pts_diff then
      (FramePresentation.Wait (pts_diff - ftc.frame_duration / 2), ftc)
    else if pts_diff < -ftc.drop_threshold_us then
      (FramePresentation.Drop, ftc)
    else
      (FramePresentation.Present,
        { ftc with
          last_present_time := some now
          last_pts := some frame.pts })

/-- C8: the very first frame always presents and anchors the state; for
a later frame, with diff computed from the speed-scaled elapsed wall
time, the result is Wait of diff minus half a frame duration iff diff
exceeds the frame duration, Drop iff diff is below minus the drop
threshold, and otherwise Present with the last-presented state moved to
this frame. -/
theorem C8_should_present_frame (ftc : FrameTimingController) (now t p : Int)
    (frame : VideoFrame) (hfd : 0 ≤ ftc.frame_duration)
    (hdt : 0 < ftc.drop_threshold_us) (hnow : t ≤ now) :
    (ftc.last_present_time = none →
      ftc.should_present_frame now frame =
        (FramePresentation.Present,
          { ftc with
            last_present_time := some now
            last_pts := some frame.pts
            clock_offset := frame.pts }))
    ∧ (ftc.last_present_time = some t → ftc.last_pts = some p →
        ((ftc.should_present_frame now frame).1 =
            FramePresentation.Wait
              (frame.pts - (p + ratTruncToInt (((now - t : Int) : ℚ) * ftc.playback_speed))
                - ftc.frame_duration / 2) ↔
          ftc.frame_duration <
            frame.pts - (p + ratTruncToInt (((now - t : Int) : ℚ) * ftc.playback_speed)))
        ∧ ((ftc.should_present_frame now frame).1 = FramePresentation.Drop ↔
            frame.pts - (p + ratTruncToInt (((now - t : Int) : ℚ) * ftc.playback_speed)) <
              -ftc.drop_threshold_us)
        ∧ (-ftc.drop_threshold_us ≤
              frame.pts - (p + ratTruncToInt (((now - t : Int) : ℚ) * ftc.playback_speed))
            ∧ frame.pts - (p + ratTruncToInt (((now - t : Int) : ℚ) * ftc.playback_speed))
              ≤ ftc.frame_duration →
          ftc.should_present_frame now frame =
            (FramePresentation.Present,
              { ftc with
                last_present_time := some now
                last_pts := some frame.pts }))) := by
  constructor
  · intro h
    simp [FrameTimingController.should_present_frame, h]
  · intro h1 h2
    have hmax : max (now - t) 0 = now - t := max_eq_left (by omega)
    simp only [FrameTimingController.should_present_frame, h1, h2, hmax, Option.getD_some]
    split_ifs with hw hdrop
    · refine ⟨iff_of_true rfl hw, iff_of_false (by simp) (by omega), fun h => ?_⟩
      exact absurd hw (not_lt.mpr h.2)
    · refine ⟨iff_of_false (by simp) (by omega), iff_of_true rfl hdrop, fun h => ?_⟩
      exact absurd hdrop (not_lt.mpr h.1)
    · exact ⟨iff_of_false (by simp) hw, iff_of_false (by simp) hdrop, fun _ => rfl⟩

/-- Witness for C8 at a concrete controller and frame. -/
theorem C8_should_present_frame_witness :
    0 ≤ (FrameTimingController.mk 60 16667 none none 0 1 50000).frame_duration
    ∧ 0 < (FrameTimingController.mk 60 16667 none none 0 1 50000).drop_threshold_us
    ∧ (0 : Int) ≤ 1000
    ∧ ((FrameTimingController.mk 60 16667 none none 0 1 50000).should_present_frame
          1000 (mkFrame 7)).1 = FramePresentation.Present :=
  ⟨by decide, by decide, by decide,
    congrArg Prod.fst
      ((C8_should_present_frame (FrameTimingController.mk 60 16667 none none 0 1 50000)
          1000 0 0 (mkFrame 7) (by decide) (by decide) (by decide)).1 rfl)⟩

/-! ## audio/cpal_output.rs: volume control, ring buffer, playback state -/

/-- Ring buffer size in samples per channel, audio/cpal_output.rs. -/
def RING_BUFFER_SIZE : Nat := 8192

/-- Minimum buffer fill before starting playback, 25 percent (the
MIN_FILL constant of audio/cpal_output.rs). -/
def MIN_FILL_LEVEL : ℚ := 1/4

/-- Volume ramp duration in samples, audio/cpal_output.rs. -/
def VOLUME_RAMP_SAMPLES : Nat := 512

/-- Volume control with smooth transitions (struct VolumeControl,
audio/cpal_output.rs); f32 gains as exact rationals. -/
structure VolumeControl where
  current : ℚ
  target : ℚ
  ramp_samples : Nat
deriving DecidableEq, Repr

/-- VolumeControl::new: unit gain, no ramp in progress. -/
def VolumeControl.new : VolumeControl :=
  { current := 1, target := 1, ramp_samples := 0 }

/-- VolumeControl::process: advance the ramp by one sample (stepping
current toward target by the remaining distance over the remaining
samples, and snapping exactly to target on the last step) and scale
the sample by the updated gain. -/
def VolumeControl.process (v : VolumeControl) (sample : ℚ) : ℚ × VolumeControl :=
  if 0 < v.ramp_samples then
    let step := (v.target - v.current) / (v.ramp_samples : ℚ)
    let current1 := v.current + step
    let ramp1 := v.ramp_samples - 1
    let current2 := if ramp1 = 0 then v.target else current1
    (sample * current2, { current := current2, target := v.target, ramp_samples := ramp1 })
  else
    (sample * v.current, v)

/-- VolumeControl::set_target: clamp to the unit interval and restart
the ramp unconditionally. -/
def VolumeControl.set_target (v : VolumeControl) (volume : ℚ) : VolumeControl :=
  { v with target := min (max volume 0) 1, ramp_samples := VOLUME_RAMP_SAMPLES }

/-- Run VolumeControl::process n times; the state evolution does not
depend on the sample values. -/
def VolumeControl.processN : VolumeControl → Nat → VolumeControl
  | v, 0 => v
  | v, n + 1 => ((v.process 0).2).processN n

/-! ## audio/volume.rs: VolumeRamp -/

/-- Ramp curve selection (enum RampType, audio/volume.rs). -/
inductive RampType where
  | Linear
  | Exponential
  | SCurve
deriving DecidableEq, Repr

/-- Volume ramping for smooth transitions (struct VolumeRamp,
audio/volume.rs); f32 values as exact rationals. -/
structure VolumeRamp where
  current : ℚ
  target : ℚ
  duration_samples : Nat
  samples_processed : Nat
  ramp_type : RampType
deriving DecidableEq, Repr

/-- VolumeRamp::new. -/
def VolumeRamp.new : VolumeRamp :=
  { current := 1, target := 1, duration_samples := 2048, samples_processed := 0
    ramp_type := RampType.Exponential }

/-- VolumeRamp::set_target: adopt the new target and restart the ramp
only when the delta from the current value exceeds the 0.001 epsilon;
otherwise leave the whole state unchanged. -/
def VolumeRamp.set_target (r : VolumeRamp) (target : ℚ) : VolumeRamp :=
  if 1/1000 < |target - r.current| then
    { r with target := target, samples_processed := 0 }
  else r

/-- VolumeRamp::next_value: the next ramped value under the configured
curve (powf with exponent 2.0 is exact squaring). -/
def VolumeRamp.next_value (r : VolumeRamp) : ℚ × VolumeRamp :=
  if r.duration_samples ≤ r.samples_processed then
    (r.target, { r with current := r.target })
  else
    let progress : ℚ := (r.samples_processed : ℚ) / (r.duration_samples : ℚ)
    let r1 := { r with samples_processed := r.samples_processed + 1 }
    let factor :=
      match r.ramp_type with
      | RampType.Linear => progress
      | RampType.Exponential =>
        if r.current < r.target then 1 - (1 - progress)^2 else progress^2
      | RampType.SCurve => progress * progress * (3 - 2 * progress)
    (r.current + (r.target - r.current) * factor, r1)

/-! ## audio/cpal_output.rs: CpalAudioOutput -/

namespace Cpal

/-- Playback state of the audio output (the private enum PlaybackState
of audio/cpal_output.rs). -/
inductive PlaybackState where
  | Stopped
  | Playing
  | Paused
  | Buffering
deriving DecidableEq, Repr

end Cpal

/-- The sample ring buffer shared by the producer (play) and the
device callback, modelled as its sample contents plus its fixed
capacity. -/
structure RingBuf where
  buf : List ℚ
  cap : Nat
deriving DecidableEq, Repr

/-- One producer push: append when below capacity, report failure when
full. -/
def RingBuf.push (rb : RingBuf) (s : ℚ) : Bool × RingBuf :=
  if rb.buf.length < rb.cap then (true, { rb with buf := rb.buf ++ [s] })
  else (false, rb)

/-- The producer write loop of CpalAudioOutput::play: push samples one
by one, stopping at the first failed push (buffer full) and dropping
the rest.  Returns the new buffer and the number of samples written. -/
def write_loop : RingBuf → List ℚ → RingBuf × Nat
  | rb, [] => (rb, 0)
  | rb, s :: rest =>
    let r := rb.push s
    if r.1 then
      let w := write_loop r.2 rest
      (w.1, w.2 + 1)
    else (rb, 0)

/-- Audio output format (struct AudioFormat, audio/mod.rs), restricted
to the fields the playback path reads; sample_format and
channel_layout only feed the bit-depth statistics. -/
structure AudioFormat where
  sample_rate : Nat
  channels : Nat
deriving DecidableEq, Repr

/-- Decoded audio batch (struct AudioSamples, decoder/mod.rs);
interleaved f32 samples as exact rationals. -/
structure AudioSamples where
  data : List ℚ
  sample_count : Nat
  channels : Nat
  sample_rate : Nat
  pts : Int
deriving DecidableEq, Repr

/-- Floor of a non-negative rational as a Nat (the Rust as-usize cast
on a non-negative float). -/
def ratNatFloor (x : ℚ) : Nat := x.floor.toNat

/-- resample_audio (audio/cpal_output.rs): linear-interpolation
resampling to the target rate, with the f64 ratio and fractions exact
rationals.  Indexing beyond the data (unreachable for well-formed
batches) is modelled as 0 via getD. -/
def resample_audio (samples : AudioSamples) (target_rate : Nat) : List ℚ :=
  let ratio : ℚ := (target_rate : ℚ) / (samples.sample_rate : ℚ)
  let channels := samples.channels
  let input_frames := samples.sample_count
  let output_frames := ratNatFloor ((input_frames : ℚ) * ratio)
  ((List.range output_frames).map fun frame =>
    let source_frame := ratNatFloor ((frame : ℚ) / ratio)
    let fraction : ℚ := (frame : ℚ) / ratio - (source_frame : ℚ)
    (List.range channels).map fun ch =>
      let idx := source_frame * channels + ch
      let next_idx := min ((source_frame + 1) * channels + ch) (samples.data.length - 1)
      samples.data.getD idx 0 * (1 - fraction) + samples.data.getD next_idx 0 * fraction).flatten

/-- The state of CpalAudioOutput (audio/cpal_output.rs) as the claims
read it.  The cpal host, device, stream, event handler and the
device-monitor thread are external resources; the AudioClock wall-time
fields (start and pause Instants, accumulated pause duration) are
modelled by presence flags, its counters exactly. -/
structure CpalAudioOutput where
  format : Option AudioFormat
  producer : Option RingBuf
  volume : VolumeControl
  state : Cpal.PlaybackState
  clock_sample_rate : Nat
  clock_samples_played : Nat
  clock_current_pts : Int
  clock_started : Bool
  clock_pause_pending : Bool
  stats_underruns : Nat
  stats_samples_played : Nat
deriving DecidableEq, Repr

/-- CpalAudioOutput::new: uninitialized output, state Stopped. -/
def CpalAudioOutput.new : CpalAudioOutput :=
  { format := none
    producer := none
    volume := VolumeControl.new
    state := Cpal.PlaybackState.Stopped
    clock_sample_rate := 48000
    clock_samples_played := 0
    clock_current_pts := 0
    clock_started := false
    clock_pause_pending := false
    stats_underruns := 0
    stats_samples_played := 0 }

/-- CpalAudioOutput::initialize on its successful path (device and
stream creation are external effects): create the ring buffer of
RING_BUFFER_SIZE samples per channel, store the producer and the
format, set the clock sample rate.  The playback state is not
touched. -/
def CpalAudioOutput.init_audio (o : CpalAudioOutput) (format : AudioFormat) :
    CpalAudioOutput :=
  { o with
    producer := some { buf := [], cap := RING_BUFFER_SIZE * format.channels }
    clock_sample_rate := format.sample_rate
    format := some format }

/-- CpalAudioOutput::play: fail when uninitialized or on a channel
mismatch; resample when the rates differ; write the samples into the
ring buffer, dropping the excess on overflow; update the clock PTS;
and promote Buffering to Playing once the fill level reaches
MIN_FILL_LEVEL. -/
def CpalAudioOutput.play (o : CpalAudioOutput) (samples : AudioSamples) :
    Except String CpalAudioOutput :=
  match o.producer, o.format with
  | none, _ => Except.error "Audio not initialized"
  | some _, none => Except.error "Audio format not set"
  | some rb, some format =>
    if samples.channels ≠ format.channels then
      Except.error "Channel count mismatch"
    else
      let resampled :=
        if samples.sample_rate ≠ format.sample_rate then
          resample_audio samples format.sample_rate
        else samples.data
      let w := write_loop rb resampled
      let o1 := { o with producer := some w.1, clock_current_pts := samples.pts }
      let fill : ℚ := (w.1.buf.length : ℚ) / (w.1.cap : ℚ)
      if o1.state = Cpal.PlaybackState.Buffering ∧ MIN_FILL_LEVEL ≤ fill then
        Except.ok { o1 with state := Cpal.PlaybackState.Playing, clock_started := true }
      else
        Except.ok o1

/-- CpalAudioOutput::pause: Playing becomes Paused (recording the
clock pause Instant); any other state is untouched.  Always Ok. -/
def CpalAudioOutput.pause (o : CpalAudioOutput) : CpalAudioOutput :=
  if o.state = Cpal.PlaybackState.Playing then
    { o with state := Cpal.PlaybackState.Paused, clock_pause_pending := true }
  else o

/-- CpalAudioOutput::resume: Paused becomes Playing (folding the pause
Instant into the accumulated pause duration); any other state is
untouched.  Always Ok. -/
def CpalAudioOutput.resume (o : CpalAudioOutput) : CpalAudioOutput :=
  if o.state = Cpal.PlaybackState.Paused then
    { o with state := Cpal.PlaybackState.Playing, clock_pause_pending := false }
  else o

/-- CpalAudioOutput::stop: state Stopped, ring buffer cleared, clock
reset, underrun counter reset.  Always Ok. -/
def CpalAudioOutput.stop (o : CpalAudioOutput) : CpalAudioOutput :=
  { o with
    state := Cpal.PlaybackState.Stopped
    producer := o.producer.map fun rb => { rb with buf := [] }
    clock_samples_played := 0
    clock_current_pts := 0
    clock_started := false
    clock_pause_pending := false
    stats_underruns := 0 }

/-- The consumer read loop of the output stream callback: fill each of
n slots by popping a sample and applying the volume ramp to it, or
with 0.0 when the buffer is exhausted. -/
def read_samples : RingBuf → VolumeControl → Nat → List ℚ × VolumeControl × RingBuf
  | rb, vol, 0 => ([], vol, rb)
  | rb, vol, n + 1 =>
    match rb.buf with
    | [] =>
      let r := read_samples rb vol n
      (0 :: r.1, r.2.1, r.2.2)
    | s :: rest =>
      let p := vol.process s
      let r := read_samples { rb with buf := rest } p.2 n
      (p.1 :: r.1, r.2.1, r.2.2)

/-- The output stream callback built in CpalAudioOutput::initialize,
asked for data_len sample slots.  Playing with enough buffered samples
consumes them through the volume control and advances the clock by the
frame count; Playing with too few is an underrun: silence, underrun
count, state to Buffering, buffer untouched; Paused, Stopped and
Buffering output silence without touching the buffer.  The callback
exists only after initialization, so the producer and format are
present whenever it runs; the missing-producer branch is unreachable
and returns silence. -/
def CpalAudioOutput.audio_callback (o : CpalAudioOutput) (data_len : Nat) :
    List ℚ × CpalAudioOutput :=
  match o.producer with
  | none => (List.replicate data_len 0, o)
  | some rb =>
    match o.state with
    | Cpal.PlaybackState.Playing =>
      if data_len ≤ rb.buf.length then
        let r := read_samples rb o.volume data_len
        let channels := (o.format.map AudioFormat.channels).getD 1
        let frames := data_len / channels
        (r.1,
          { o with
            volume := r.2.1
            producer := some r.2.2
            clock_samples_played := o.clock_samples_played + frames
            stats_samples_played := o.stats_samples_played + frames })
      else
        (List.replicate data_len 0,
          { o with
            stats_underruns := o.stats_underruns + 1
            state := Cpal.PlaybackState.Buffering })
    | Cpal.PlaybackState.Paused | Cpal.PlaybackState.Stopped
    | Cpal.PlaybackState.Buffering =>
      (List.replicate data_len 0, o)

/-! ## player/controller.rs: PlayerController::stop -/

namespace Player

/-- Player-level playback state (enum PlaybackState, player/mod.rs). -/
inductive PlaybackState where
  | Idle
  | Stopped
  | Playing
  | Paused
  | Buffering
  | Seeking
  | Ended
  | Error
deriving DecidableEq, Repr

end Player

/-- The PlayerController state that stop() reads and writes: the
playback state and position of the inner PlayerState, the running
flag, both bounded queues, and the audio output.  Thread handles and
joins, and the PlaybackStopped event, are external effects; the fields
stop() never touches (media_info, speed, volume, playlist, ...) are
omitted. -/
structure PlayerControllerState where
  state : Player.PlaybackState
  position_us : Int
  running : Bool
  video_queue : List VideoFrame
  audio_queue : List AudioSamples
  audio : CpalAudioOutput
deriving DecidableEq, Repr

/-- PlayerController::stop: state Stopped with position 0, running
flag cleared, audio stopped, both queues cleared. -/
def PlayerControllerState.stop (s : PlayerControllerState) : PlayerControllerState :=
  { s with
    state := Player.PlaybackState.Stopped
    position_us := 0
    running := false
    audio := s.audio.stop
    video_queue := []
    audio_queue := [] }

/-! ## Volume control lemmas -/

lemma process_ramp_zero (v : VolumeControl) (s : ℚ) (h : v.ramp_samples = 0) :
    v.process s = (s * v.current, v) := by
  rw [VolumeControl.process, if_neg (by omega : ¬ 0 < v.ramp_samples)]

lemma processN_ramp_zero (v : VolumeControl) (h : v.ramp_samples = 0) (n : Nat) :
    v.processN n = v := by
  induction n with
  | zero => rfl
  | succ n ih =>
    show ((v.process 0).2).processN n = v
    rw [process_ramp_zero v 0 h]
    exact ih

lemma processN_add (v : VolumeControl) (m n : Nat) :
    v.processN (m + n) = (v.processN m).processN n := by
  induction m generalizing v with
  | zero =>
    rw [Nat.zero_add]
    rfl
  | succ m ih =>
    have h : m + 1 + n = (m + n) + 1 := by omega
    rw [h]
    show ((v.process 0).2).processN (m + n) = _
    rw [ih]
    rfl

lemma processN_succ (v : VolumeControl) (k : Nat) :
    v.processN (k + 1) = ((v.processN k).process 0).2 := by
  rw [processN_add v k 1]
  rfl

lemma process_step_state (v : VolumeControl) (h : 0 < v.ramp_samples) :
    (v.process 0).2 =
      { current :=
          if v.ramp_samples - 1 = 0 then v.target
          else v.current + (v.target - v.current) / (v.ramp_samples : ℚ)
        target := v.target
        ramp_samples := v.ramp_samples - 1 } := by
  rw [VolumeControl.process, if_pos h]

lemma processN_ramp_run :
    ∀ (r : Nat) (v : VolumeControl), v.ramp_samples = r → 0 < r →
      (v.processN r).current = v.target ∧ (v.processN r).ramp_samples = 0 := by
  intro r
  induction r with
  | zero =>
    intro v _ hr
    exact absurd hr (lt_irrefl 0)
  | succ r ih =>
    intro v h hr
    show (((v.process 0).2).processN r).current = v.target
      ∧ (((v.process 0).2).processN r).ramp_samples = 0
    rw [process_step_state v (by omega), h, Nat.add_sub_cancel]
    by_cases hr0 : r = 0
    · subst hr0
      simp [VolumeControl.processN]
    · exact ih _ rfl (by omega)

lemma process_step_le (v : VolumeControl) (h : v.current ≤ v.target) :
    v.current ≤ (v.process 0).2.current ∧ (v.process 0).2.current ≤ v.target := by
  simp only [VolumeControl.process]
  split_ifs with h1 h2
  · exact ⟨h, le_rfl⟩
  · have hn : (1:ℚ) ≤ (v.ramp_samples : ℚ) := by exact_mod_cast h1
    have hd : 0 ≤ (v.target - v.current) / (v.ramp_samples : ℚ) :=
      div_nonneg (by linarith) (by linarith)
    have hds : (v.target - v.current) / (v.ramp_samples : ℚ) ≤ v.target - v.current :=
      div_le_self (by linarith) hn
    constructor
    · show v.current ≤ v.current + (v.target - v.current) / (v.ramp_samples : ℚ)
      linarith
    · show v.current + (v.target - v.current) / (v.ramp_samples : ℚ) ≤ v.target
      linarith
  · exact ⟨le_rfl, h⟩

lemma process_step_ge (v : VolumeControl) (h : v.target ≤ v.current) :
    (v.process 0).2.current ≤ v.current ∧ v.target ≤ (v.process 0).2.current := by
  simp only [VolumeControl.process]
  split_ifs with h1 h2
  · exact ⟨h, le_rfl⟩
  · have hn : (1:ℚ) ≤ (v.ramp_samples : ℚ) := by exact_mod_cast h1
    have hd0 : 0 ≤ (v.current - v.target) / (v.ramp_samples : ℚ) :=
      div_nonneg (by linarith) (by linarith)
    have hds : (v.current - v.target) / (v.ramp_samples : ℚ) ≤ v.current - v.target :=
      div_le_self (by linarith) hn
    have hneg : (v.target - v.current) / (v.ramp_samples : ℚ) =
        -((v.current - v.target) / (v.ramp_samples : ℚ)) := by
      ring
    constructor
    · show v.current + (v.target - v.current) / (v.ramp_samples : ℚ) ≤ v.current
      rw [hneg]
      linarith
    · show v.target ≤ v.current + (v.target - v.current) / (v.ramp_samples : ℚ)
      rw [hneg]
      linarith
  · exact ⟨le_rfl, h⟩

lemma process_state_target (v : VolumeControl) (s : ℚ) :
    (v.process s).2.target = v.target := by
  rw [VolumeControl.process]
  split_ifs <;> rfl

lemma processN_invariant_le (v : VolumeControl) (h : v.current ≤ v.target) :
    ∀ k, (v.processN k).current ≤ v.target ∧ (v.processN k).target = v.target := by
  intro k
  induction k with
  | zero => exact ⟨h, rfl⟩
  | succ k ih =>
    have hc : (v.processN k).current ≤ (v.processN k).target := by
      rw [ih.2]
      exact ih.1
    have hs := process_step_le (v.processN k) hc
    rw [processN_succ]
    exact ⟨le_of_le_of_eq hs.2 ih.2,
      (process_state_target (v.processN k) 0).trans ih.2⟩

lemma processN_invariant_ge (v : VolumeControl) (h : v.target ≤ v.current) :
    ∀ k, v.target ≤ (v.processN k).current ∧ (v.processN k).target = v.target := by
  intro k
  induction k with
  | zero => exact ⟨h, rfl⟩
  | succ k ih =>
    have hc : (v.processN k).target ≤ (v.processN k).current := by
      rw [ih.2]
      exact ih.1
    have hs := process_step_ge (v.processN k) hc
    rw [processN_succ]
    exact ⟨le_of_eq_of_le ih.2.symm hs.2,
      (process_state_target (v.processN k) 0).trans ih.2⟩

lemma processN_mono_le (v : VolumeControl) (h : v.current ≤ v.target) (k : Nat) :
    (v.processN k).current ≤ (v.processN (k + 1)).current
    ∧ (v.processN (k + 1)).current ≤ v.target := by
  have inv := processN_invariant_le v h
  have hc : (v.processN k).current ≤ (v.processN k).target := by
    rw [(inv k).2]
    exact (inv k).1
  have hs := process_step_le (v.processN k) hc
  rw [processN_succ]
  exact ⟨hs.1, le_of_le_of_eq hs.2 (inv k).2⟩

lemma processN_mono_ge (v : VolumeControl) (h : v.target ≤ v.current) (k : Nat) :
    (v.processN (k + 1)).current ≤ (v.processN k).current
    ∧ v.target ≤ (v.processN (k + 1)).current := by
  have inv := processN_invariant_ge v h
  have hc : (v.processN k).target ≤ (v.processN k).current := by
    rw [(inv k).2]
    exact (inv k).1
  have hs := process_step_ge (v.processN k) hc
  rw [processN_succ]
  exact ⟨hs.1, le_of_eq_of_le (inv k).2.symm hs.2⟩

lemma set_target_in_range (v : VolumeControl) (tv : ℚ) (h0 : 0 ≤ tv) (h1 : tv ≤ 1) :
    v.set_target tv =
      { current := v.current, target := tv, ramp_samples := VOLUME_RAMP_SAMPLES } := by
  rw [VolumeControl.set_target]
  simp [max_eq_left h0, min_eq_left h1]

/-- C6: after set_target to a value v in the unit interval and at
least VOLUME_RAMP_SAMPLES process calls, the gain is exactly v and
every further sample is scaled by exactly v; during the ramp the gain
moves monotonically from the starting gain toward v. -/
theorem C6_volume_ramp_convergence (v : VolumeControl) (tv : ℚ)
    (h0 : 0 ≤ tv) (h1 : tv ≤ 1) :
    (∀ k, VOLUME_RAMP_SAMPLES ≤ k →
        ((v.set_target tv).processN k).current = tv
        ∧ ∀ s : ℚ, (((v.set_target tv).processN k).process s).1 = s * tv)
    ∧ (∀ k,
        (v.current ≤ tv →
          ((v.set_target tv).processN k).current
              ≤ ((v.set_target tv).processN (k + 1)).current
          ∧ ((v.set_target tv).processN (k + 1)).current ≤ tv)
        ∧ (tv ≤ v.current →
          ((v.set_target tv).processN (k + 1)).current
              ≤ ((v.set_target tv).processN k).current
          ∧ tv ≤ ((v.set_target tv).processN (k + 1)).current)) := by
  rw [set_target_in_range v tv h0 h1]
  set w : VolumeControl :=
    { current := v.current, target := tv, ramp_samples := VOLUME_RAMP_SAMPLES } with hw
  constructor
  · intro k hk
    have hrun := processN_ramp_run VOLUME_RAMP_SAMPLES w rfl (by decide)
    have hk' : k = VOLUME_RAMP_SAMPLES + (k - VOLUME_RAMP_SAMPLES) := by omega
    rw [hk', processN_add,
      processN_ramp_zero (w.processN VOLUME_RAMP_SAMPLES) hrun.2 (k - VOLUME_RAMP_SAMPLES)]
    refine ⟨hrun.1, fun s => ?_⟩
    rw [process_ramp_zero _ s hrun.2]
    show s * (w.processN VOLUME_RAMP_SAMPLES).current = s * tv
    rw [hrun.1]
  · intro k
    exact ⟨fun hc => processN_mono_le w hc k, fun hc => processN_mono_ge w hc k⟩

lemma half_nonneg_q : (0:ℚ) ≤ 1/2 := by norm_num

lemma half_le_one_q : (1:ℚ)/2 ≤ 1 := by norm_num

/-- Witness for C6 at a concrete starting control and target. -/
theorem C6_volume_ramp_convergence_witness :
    ((0:ℚ) ≤ 1/2 ∧ (1:ℚ)/2 ≤ 1)
    ∧ (VOLUME_RAMP_SAMPLES ≤ 600
      ∧ ((VolumeControl.new.set_target (1/2)).processN 600).current = 1/2) :=
  ⟨⟨half_nonneg_q, half_le_one_q⟩,
    ⟨by decide,
      ((C6_volume_ramp_convergence VolumeControl.new (1/2) half_nonneg_q half_le_one_q).1
        600 (by decide)).1⟩⟩

/-- C5 counterexample: the device-feed VolumeControl::set_target
restarts the ramp even for a zero delta.  On a control with current
gain 1 and no ramp in progress, set_target 1 (delta 0, within the
0.001 epsilon) changes ramp_samples from 0 to VOLUME_RAMP_SAMPLES,
contradicting the claim that such a call leaves the ramp state
unchanged. -/
theorem C5_counterexample :
    |(1:ℚ) - VolumeControl.new.current| ≤ 1/1000
    ∧ (VolumeControl.new.set_target 1).ramp_samples ≠ VolumeControl.new.ramp_samples := by
  constructor
  · norm_num [VolumeControl.new]
  · decide

/-- C5 as amended: the device-feed VolumeControl::set_target
(cpal_output.rs) unconditionally clamps the target to the unit
interval and restarts the ramp, with no epsilon test; the 0.001
epsilon guard lives only in VolumeRamp::set_target (volume.rs), which
leaves target and progress unchanged when the delta from the current
value is within the epsilon and otherwise adopts the target and
resets progress. -/
theorem C5_set_target_amended :
    (∀ (v : VolumeControl) (x : ℚ),
        (v.set_target x).ramp_samples = VOLUME_RAMP_SAMPLES
        ∧ (v.set_target x).target = min (max x 0) 1
        ∧ (v.set_target x).current = v.current)
    ∧ (∀ (r : VolumeRamp) (t : ℚ),
        (|t - r.current| ≤ 1/1000 → r.set_target t = r)
        ∧ (1/1000 < |t - r.current| →
            r.set_target t = { r with target := t, samples_processed := 0 })) := by
  refine ⟨fun v x => ⟨rfl, rfl, rfl⟩, fun r t => ⟨?_, ?_⟩⟩
  · intro h
    rw [VolumeRamp.set_target, if_neg (not_lt.mpr h)]
  · intro h
    rw [VolumeRamp.set_target, if_pos h]

lemma vr_new_eps_le : |(1:ℚ) - VolumeRamp.new.current| ≤ 1/1000 := by
  norm_num [VolumeRamp.new]

/-- Witness for the amended C5 at concrete inputs. -/
theorem C5_set_target_amended_witness :
    ((VolumeControl.new.set_target (1/2)).ramp_samples = VOLUME_RAMP_SAMPLES
      ∧ (VolumeControl.new.set_target (1/2)).target = min (max (1/2) 0) 1
      ∧ (VolumeControl.new.set_target (1/2)).current = VolumeControl.new.current)
    ∧ (|(1:ℚ) - VolumeRamp.new.current| ≤ 1/1000
      ∧ VolumeRamp.new.set_target 1 = VolumeRamp.new) :=
  ⟨C5_set_target_amended.1 VolumeControl.new (1/2),
    ⟨vr_new_eps_le, (C5_set_target_amended.2 VolumeRamp.new 1).1 vr_new_eps_le⟩⟩

/-- C4: the audio-side state machine never leaves Stopped on
initialize-then-play.  From a fresh output (state Stopped), initialize
followed by play leaves the state Stopped rather than Buffering: play
only promotes Buffering to Playing, resume only Paused to Playing, and
nothing ever sets Buffering from Stopped, so the claimed
Stopped-to-Buffering transition does not exist in the code. -/
theorem C4_stopped_play_stays_stopped :
    ((CpalAudioOutput.new.init_audio (AudioFormat.mk 48000 2)).play
        (AudioSamples.mk [0, 0, 0, 0] 2 2 48000 0)).toOption.map CpalAudioOutput.state
      = some Cpal.PlaybackState.Stopped
    ∧ some Cpal.PlaybackState.Stopped ≠ some Cpal.PlaybackState.Buffering := by
  constructor
  · decide
  · decide

lemma write_loop_spec (input : List ℚ) :
    ∀ rb : RingBuf, write_loop rb input =
      (RingBuf.mk (rb.buf ++ input.take (rb.cap - rb.buf.length)) rb.cap,
        min (rb.cap - rb.buf.length) input.length) := by
  induction input with
  | nil =>
    intro rb
    simp [write_loop]
  | cons s rest ih =>
    intro rb
    by_cases h : rb.buf.length < rb.cap
    · simp only [write_loop, RingBuf.push, if_pos h, if_true]
      rw [ih]
      have hsub : rb.cap - rb.buf.length = (rb.cap - (rb.buf.length + 1)) + 1 := by omega
      rw [hsub, List.take_succ_cons]
      simp
      omega
    · have h0 : rb.cap - rb.buf.length = 0 := by omega
      simp [write_loop, RingBuf.push, h, h0]

/-- C7: an initialized play call with matching channel count and
sample rate always returns Ok: the ring buffer receives exactly the
prefix that fits in the free capacity, the excess is dropped, and the
buffer never exceeds its capacity.  Overflow is not an error and the
call is a total function of the state (no blocking, no panic). -/
theorem C7_play_overflow_drops (o : CpalAudioOutput) (rb : RingBuf) (fmt : AudioFormat)
    (samples : AudioSamples) (hp : o.producer = some rb) (hf : o.format = some fmt)
    (hch : samples.channels = fmt.channels) (hsr : samples.sample_rate = fmt.sample_rate)
    (hcap : rb.buf.length ≤ rb.cap) :
    ∃ o' : CpalAudioOutput,
      o.play samples = Except.ok o'
      ∧ o'.producer =
          some (RingBuf.mk (rb.buf ++ samples.data.take (rb.cap - rb.buf.length)) rb.cap)
      ∧ (rb.buf ++ samples.data.take (rb.cap - rb.buf.length)).length ≤ rb.cap := by
  have hlen : (rb.buf ++ samples.data.take (rb.cap - rb.buf.length)).length ≤ rb.cap := by
    rw [List.length_append, List.length_take]
    omega
  simp only [CpalAudioOutput.play, hp, hf]
  rw [if_neg (fun hne => hne hch)]
  have hres : (if samples.sample_rate ≠ fmt.sample_rate then
      resample_audio samples fmt.sample_rate else samples.data) = samples.data :=
    if_neg (fun hne => hne hsr)
  rw [hres, write_loop_spec]
  split_ifs with h3
  · exact ⟨_, rfl, rfl, hlen⟩
  · exact ⟨_, rfl, rfl, hlen⟩

/-- Witness for C7 at a concrete initialized output. -/
theorem C7_play_overflow_drops_witness :
    (CpalAudioOutput.new.init_audio (AudioFormat.mk 48000 2)).producer =
        some (RingBuf.mk [] (RING_BUFFER_SIZE * 2))
    ∧ (CpalAudioOutput.new.init_audio (AudioFormat.mk 48000 2)).format =
        some (AudioFormat.mk 48000 2)
    ∧ (RingBuf.mk ([] : List ℚ) (RING_BUFFER_SIZE * 2)).buf.length ≤
        (RingBuf.mk ([] : List ℚ) (RING_BUFFER_SIZE * 2)).cap
    ∧ ∃ o', (CpalAudioOutput.new.init_audio (AudioFormat.mk 48000 2)).play
          (AudioSamples.mk [0, 0] 1 2 48000 5) = Except.ok o'
        ∧ o'.producer = some (RingBuf.mk
            ((RingBuf.mk ([] : List ℚ) (RING_BUFFER_SIZE * 2)).buf ++
              (AudioSamples.mk [0, 0] 1 2 48000 5).data.take
                ((RingBuf.mk ([] : List ℚ) (RING_BUFFER_SIZE * 2)).cap -
                  (RingBuf.mk ([] : List ℚ) (RING_BUFFER_SIZE * 2)).buf.length))
            (RingBuf.mk ([] : List ℚ) (RING_BUFFER_SIZE * 2)).cap)
        ∧ ((RingBuf.mk ([] : List ℚ) (RING_BUFFER_SIZE * 2)).buf ++
            (AudioSamples.mk [0, 0] 1 2 48000 5).data.take
              ((RingBuf.mk ([] : List ℚ) (RING_BUFFER_SIZE * 2)).cap -
                (RingBuf.mk ([] : List ℚ) (RING_BUFFER_SIZE * 2)).buf.length)).length ≤
          (RingBuf.mk ([] : List ℚ) (RING_BUFFER_SIZE * 2)).cap :=
  ⟨rfl, rfl, by decide,
    C7_play_overflow_drops (CpalAudioOutput.new.init_audio (AudioFormat.mk 48000 2))
      (RingBuf.mk [] (RING_BUFFER_SIZE * 2)) (AudioFormat.mk 48000 2)
      (AudioSamples.mk [0, 0] 1 2 48000 5) rfl rfl rfl rfl (by decide)⟩

lemma cpal_stop_idem (o : CpalAudioOutput) : o.stop.stop = o.stop := by
  cases hp : o.producer <;> simp [CpalAudioOutput.stop, hp]

/-- C9: PlayerController::stop is idempotent - a second stop is a
no-op on the whole modelled state - and after any stop the state is
Stopped with both queues empty (so stop from Stopped leaves Stopped
and empty queues). -/
theorem C9_stop_idempotent :
    (∀ s : PlayerControllerState, s.stop.stop = s.stop)
    ∧ ∀ s : PlayerControllerState,
        s.stop.state = Player.PlaybackState.Stopped
        ∧ s.stop.video_queue = [] ∧ s.stop.audio_queue = [] := by
  constructor
  · intro s
    simp [PlayerControllerState.stop, cpal_stop_idem]
  · intro s
    exact ⟨rfl, rfl, rfl⟩

end CCPlayer
